import Mathlib

/-!
Verification of the `gobject-example-rs` core against its specification.

The embedding follows `src/foo/imp.rs` and `src/shared_rstring/mod.rs`:
machine `i32` values are `Int` with explicit reduction modulo `2^32`,
fallible paths (`unimplemented!`, `Option::unwrap`) become `PropOutcome`
or `Option`, and the per-instance `RefCell` state becomes explicit state
passing through a `FooPriv` record.
-/

namespace GObjectExample

/-- Two-sided `i32` range check: `-2^31 ≤ n < 2^31`. -/
def inRange32 (n : Int) : Prop := -2147483648 ≤ n ∧ n < 2147483648

instance (n : Int) : Decidable (inRange32 n) := by
  unfold inRange32; infer_instance

/-- Reduce an integer into the `i32` range, two's-complement style:
the semantics of Rust's native `i32` addition when it overflows
(release-mode wrapping). -/
def wrap32 (n : Int) : Int := (n + 2147483648) % 4294967296 - 2147483648

/-- Per-instance private state of `Foo` (struct `Foo` in `imp.rs`:
`name: RefCell<Option<String>>`, `counter: RefCell<i32>`). -/
structure FooPriv where
  name : Option String
  counter : Int
  deriving Repr, DecidableEq

/-- One emission request of the `"incremented"` signal, carrying the
two `i32` arguments passed to `emit_by_name` in `Foo::increment`. -/
structure Emission where
  newValue : Int
  inc : Int
  deriving Repr, DecidableEq

/-- `Foo::increment` (imp.rs:148-156): add `inc` to the counter with
native `i32` addition, emit `"incremented"` with `(new_value, inc)`,
and return the new counter value. -/
def Foo.increment (s : FooPriv) (inc : Int) : Int × FooPriv × List Emission :=
  let val := wrap32 (s.counter + inc)
  (val, { s with counter := val }, [⟨val, inc⟩])

/-- `Foo::incremented` (imp.rs:158-161): the default class handler body,
which does nothing. -/
def Foo.incremented (s : FooPriv) (_val _inc : Int) : FooPriv := s

/-- `Foo::get_counter` (imp.rs:163-165). -/
def Foo.get_counter (s : FooPriv) : Int := s.counter

/-- `Foo::get_name` (imp.rs:167-169). -/
def Foo.get_name (s : FooPriv) : Option String := s.name

/-- `Foo::set_name` (imp.rs:171-173). -/
def Foo.set_name (s : FooPriv) (name : Option String) : FooPriv :=
  { s with name := name }

/-- Outcome of a property accessor: `panic` models the
`unimplemented!()` abort on an unmatched property name. -/
inductive PropOutcome (α : Type) where
  | ok (a : α)
  | panic
  deriving Repr, DecidableEq

/-- `ObjectImpl::properties` (imp.rs:99-112): the declared property
table holds exactly one `ParamSpec`, the string property `"name"`. -/
def Foo.properties : List String := ["name"]

/-- `ObjectImpl::set_property` (imp.rs:114-128): dispatch on the pspec
name; `"name"` routes to `set_name`, anything else hits
`unimplemented!()`. -/
def Foo.set_property (s : FooPriv) (pspecName : String) (value : Option String) :
    PropOutcome FooPriv :=
  if pspecName = "name" then .ok (Foo.set_name s value) else .panic

/-- `ObjectImpl::get_property` (imp.rs:130-135): dispatch on the pspec
name; `"name"` routes to `get_name`, anything else hits
`unimplemented!()`. -/
def Foo.get_property (s : FooPriv) (pspecName : String) :
    PropOutcome (Option String) :=
  if pspecName = "name" then .ok (Foo.get_name s) else .panic

/-- Run a sequence of `increment` calls against one instance,
recording each call's return value and the signal emissions it made. -/
def runIncrements (s : FooPriv) : List Int → List (Int × List Emission)
  | [] => []
  | inc :: rest =>
    let r := Foo.increment s inc
    (r.1, r.2.2) :: runIncrements r.2.1 rest

/-- `FooClass` (imp.rs:20-25): the class struct ("vtable") with one
nullable function-pointer slot per virtual method.  Slots act on the
instance's private state; `class_init` fills them with the default
trampolines and a subclass's `class_init` may replace them. -/
structure FooClassRec where
  increment : Option (FooPriv → Int → Int × FooPriv × List Emission)
  incremented : Option (FooPriv → Int → Int → FooPriv)

/-- `increment_default_trampoline` (imp.rs:227-230): resolve the
implementation from the instance and call the safe `Foo::increment`. -/
def increment_default_trampoline : FooPriv → Int → Int × FooPriv × List Emission :=
  fun s inc => Foo.increment s inc

/-- `incremented_default_trampoline` (imp.rs:232-235). -/
def incremented_default_trampoline : FooPriv → Int → Int → FooPriv :=
  fun s val inc => Foo.incremented s val inc

/-- `ObjectSubclass::class_init` (imp.rs:64-67): populate both vtable
slots with the default trampolines. -/
def fooClassInit : FooClassRec :=
  { increment := some increment_default_trampoline
    incremented := some incremented_default_trampoline }

/-- A live instance: a reference to its (possibly subclassed) class
record plus its private state. -/
structure Inst where
  klass : FooClassRec
  priv : FooPriv

/-- `ex_foo_increment` (imp.rs:185-189): read the class of the
instance itself, take the `increment` slot and call it (`unwrap`
modelled as `Option`). -/
def ex_foo_increment (this : Inst) (inc : Int) :
    Option (Int × FooPriv × List Emission) :=
  (this.klass).increment.map (fun f => f this.priv inc)

/-- `ex_foo_get_counter` (imp.rs:196-199): straight trampoline to the
implementation, not a vtable slot. -/
def ex_foo_get_counter (this : Inst) : Int :=
  Foo.get_counter this.priv

/-- `ex_foo_get_name` (imp.rs:205-208): straight trampoline to the
implementation, not a vtable slot. -/
def ex_foo_get_name (this : Inst) : Option String :=
  Foo.get_name this.priv

/-! ## Signal emission

The dispatch machinery of `emit_by_name` lives in GLib, outside this
repository; it is modelled from the spec (§4.4): connected handlers
run first, in connection order, each with the same arguments, then the
default class handler runs.  The class handler registered in
`ObjectImpl::signals` (imp.rs:79-92) resolves the `incremented` vtable
slot of the object's class and calls it with `(val, inc)`. -/

/-- Observable events during one emission of `"incremented"`.
External handlers are identified by the order-preserving id they were
connected with. -/
inductive Ev where
  | external (h : Nat) (newValue inc : Int)
  | classDefault (newValue inc : Int)
  | slotCall (newValue inc : Int)
  deriving Repr, DecidableEq

/-- Modelled from the spec (§4.4): invoke the connected handlers one
after the other, each receiving the same `(new_value, inc)` pair. -/
def runHandlers (handlers : List Nat) (val inc : Int) : List Ev :=
  match handlers with
  | [] => []
  | h :: rest => Ev.external h val inc :: runHandlers rest val inc

/-- The default class handler from `ObjectImpl::signals`
(imp.rs:79-92): look up the `incremented` slot in the object's class
and, if present, call it with `(val, inc)`. -/
def classHandler (klass : FooClassRec) (s : FooPriv) (val inc : Int) :
    FooPriv × List Ev :=
  match klass.incremented with
  | some f => (f s val inc, [Ev.classDefault val inc, Ev.slotCall val inc])
  | none => (s, [Ev.classDefault val inc])

/-- Modelled from the spec (§4.4): one synchronous emission of
`"incremented"` — external handlers first, then the default class
handler. -/
def emitIncremented (klass : FooClassRec) (handlers : List Nat)
    (s : FooPriv) (val inc : Int) : FooPriv × List Ev :=
  let hevs := runHandlers handlers val inc
  let r := classHandler klass s val inc
  (r.1, hevs ++ r.2)

/-! ## Type registration

`ex_foo_get_type` (imp.rs:221-224) delegates to GLib's type registry,
which is outside this repository; it is modelled from the spec (§4.1):
a compute-once cache that registers the type and runs `class_init`
exactly once, then returns the cached identifier forever.  The spec's
one-time-initialization barrier serialises concurrent first calls, so
calls are modelled as a sequence. -/

/-- Modelled from the spec (§4.1): the registry state — the cached
type identifier (if registration already ran), how many times
`class_init` ran, and the next fresh identifier. -/
structure RegState where
  cachedType : Option Nat
  classInitRuns : Nat
  nextId : Nat
  deriving Repr, DecidableEq

/-- Modelled from the spec (§4.1, §6): `ex_foo_get_type` — on first
call register the type (allocating a fresh stable id and running
`class_init` once), on every later call return the cached id. -/
def ex_foo_get_type (st : RegState) : Nat × RegState :=
  match st.cachedType with
  | some t => (t, st)
  | none =>
    (st.nextId,
     { cachedType := some st.nextId
       classInitRuns := st.classInitRuns + 1
       nextId := st.nextId + 1 })

/-- Call `ex_foo_get_type` `n` times in sequence, collecting the
returned identifiers. -/
def getTypeCalls : Nat → RegState → List Nat × RegState
  | 0, st => ([], st)
  | n + 1, st =>
    let r := ex_foo_get_type st
    let rest := getTypeCalls n r.2
    (r.1 :: rest.1, rest.2)

/-! ## SharedRString

The backing implementation (`shared_rstring/imp.rs`, behind the
`bindings` feature gate) is not part of the sources here; only the
wrapper `SharedRString::new/get` and the `copy => ref`,
`free => unref` glue are.  The refcounted cell is modelled from the
spec (§4.6). -/

/-- Modelled from the spec (§4.6): the backing storage of a
`SharedRString` — immutable optional string content plus a reference
count.  `count = 0` means the storage has been released. -/
structure SharedRString where
  content : Option String
  count : Nat
  deriving Repr, DecidableEq

namespace SharedRString

/-- `SharedRString::new` (mod.rs:30-32), storage modelled from the
spec (§4.6): allocate the cell with the given content and count 1. -/
def new (s : Option String) : SharedRString := ⟨s, 1⟩

/-- `SharedRString::get` (mod.rs:35-37), storage modelled from the
spec (§4.6): a copy of the current content.  Only meaningful while the
storage is live (`count ≠ 0`); release itself is tracked by `count`. -/
def get (c : SharedRString) : Option String := c.content

/-- `copy => ex_shared_rstring_ref` (mod.rs:23), modelled from the
spec (§4.6): a new handle aliasing the same storage, count + 1. -/
def ref (c : SharedRString) : SharedRString :=
  { c with count := c.count + 1 }

/-- `free => ex_shared_rstring_unref` (mod.rs:24), modelled from the
spec (§4.6): count - 1; the storage is released when it reaches 0. -/
def unref (c : SharedRString) : SharedRString :=
  { c with count := c.count - 1 }

end SharedRString

/-! ## Helper lemmas -/

theorem wrap32_eq_self {n : Int} (h : inRange32 n) : wrap32 n = n := by
  simp only [wrap32, inRange32] at *
  omega

theorem inRange32_wrap32 (n : Int) : inRange32 (wrap32 n) := by
  simp only [wrap32, inRange32]
  omega

theorem wrap32_sub_emod (n : Int) : (wrap32 n - n) % 4294967296 = 0 := by
  simp only [wrap32]
  omega

/-- The general running-sum lemma: starting from counter `c`, if every
partial sum stays inside the `i32` range then the `k`-th call returns
`c` plus the sum of the first `k + 1` increments, and emits exactly
one signal carrying that value with its own increment. -/
theorem runIncrements_get?_sum (nm : Option String) (c : Int) (incs : List Int)
    (h : ∀ k, k ≤ incs.length → inRange32 (c + (incs.take k).sum)) :
    ∀ k inc, incs.get? k = some inc →
      (runIncrements ⟨nm, c⟩ incs).get? k =
        some (c + (incs.take (k + 1)).sum, [⟨c + (incs.take (k + 1)).sum, inc⟩]) := by
  induction incs generalizing c with
  | nil =>
    intro k inc hk
    simp at hk
  | cons a rest ih =>
    intro k inc hk
    have h1 : inRange32 (c + a) := by simpa using h 1 (by simp)
    have hval : wrap32 (c + a) = c + a := wrap32_eq_self h1
    cases k with
    | zero =>
      simp only [List.get?_cons_zero, Option.some.injEq] at hk
      subst hk
      simp [runIncrements, Foo.increment, hval]
    | succ k =>
      simp only [List.get?_cons_succ] at hk
      have h' : ∀ j, j ≤ rest.length → inRange32 ((c + a) + (rest.take j).sum) := by
        intro j hj
        have := h (j + 1) (by simpa using Nat.succ_le_succ hj)
        simpa [add_assoc] using this
      have hrec := ih (c + a) h' k inc hk
      simp only [runIncrements, Foo.increment, hval, List.get?_cons_succ,
        List.take_succ_cons, List.sum_cons]
      simpa [add_assoc] using hrec

theorem runHandlers_eq_map (handlers : List Nat) (val inc : Int) :
    runHandlers handlers val inc = handlers.map (fun h => Ev.external h val inc) := by
  induction handlers with
  | nil => simp [runHandlers]
  | cons h rest ih => simp [runHandlers, ih]

/-! ## Claim theorems -/

/-- C1 (amended): for a sequence of `increment` calls starting at
counter 0, provided every partial sum of the increments stays inside
the `i32` range, the `k`-th call returns the running sum of the first
`k + 1` increments, and emits exactly one `"incremented"` signal
carrying `(new_value, inc)` where `new_value` is that call's returned
counter. -/
theorem increment_running_sum (nm : Option String) (incs : List Int)
    (h : ∀ k, k ≤ incs.length → inRange32 ((incs.take k).sum)) :
    ∀ k inc, incs.get? k = some inc →
      (runIncrements ⟨nm, 0⟩ incs).get? k =
        some ((incs.take (k + 1)).sum, [⟨(incs.take (k + 1)).sum, inc⟩]) := by
  intro k inc hk
  have := runIncrements_get?_sum nm 0 incs (by simpa using h) k inc hk
  simpa using this

/-- Witness for C1 (amended): two calls `increment 2; increment 3`
return 2 then 5, the second emitting exactly `(5, 3)`. -/
theorem increment_running_sum_witness :
    (runIncrements ⟨none, 0⟩ [2, 3]).get? 1 = some (5, [⟨5, 3⟩]) := by
  exact (increment_running_sum none [2, 3] (by decide) 1 3 (by decide)).trans (by decide)

/-- C1 counterexample: with counter at 0, the calls
`increment 2147483647; increment 1` make the second call return
`-2147483648`, not the running sum `2147483648`; the claim as stated
(unqualified running sums) is therefore false. -/
theorem increment_running_sum_counterexample :
    (runIncrements ⟨none, 0⟩ [2147483647, 1]).get? 1 =
      some (-2147483648, [⟨-2147483648, 1⟩]) ∧
    (2147483647 : Int) + 1 = 2147483648 ∧
    (-2147483648 : Int) ≠ 2147483648 := by
  decide

/-- C10: the counter is a 32-bit signed integer: each `increment`
leaves the counter inside the `i32` range, the new value is congruent
to the mathematical sum modulo `2^32`, equals it exactly when that sum
is in range, and at the concrete overflow input
`counter = 2147483647, inc = 1` the result wraps to `-2147483648`. -/
theorem increment_wraps_i32 (s : FooPriv) (inc : Int) :
    inRange32 ((Foo.increment s inc).1) ∧
    ((Foo.increment s inc).1 - (s.counter + inc)) % 4294967296 = 0 ∧
    (inRange32 (s.counter + inc) → (Foo.increment s inc).1 = s.counter + inc) ∧
    (Foo.increment ⟨none, 2147483647⟩ 1).1 = -2147483648 := by
  refine ⟨?_, ?_, ?_, by decide⟩
  · simpa [Foo.increment] using inRange32_wrap32 (s.counter + inc)
  · simpa [Foo.increment] using wrap32_sub_emod (s.counter + inc)
  · intro h
    simp [Foo.increment, wrap32_eq_self h]

/-- Witness for C10 at `counter = 5`, `inc = 7`. -/
theorem increment_wraps_i32_witness :
    inRange32 ((Foo.increment ⟨none, 5⟩ 7).1) ∧
    ((Foo.increment ⟨none, 5⟩ 7).1 - ((5 : Int) + 7)) % 4294967296 = 0 ∧
    (inRange32 ((5 : Int) + 7) → (Foo.increment ⟨none, 5⟩ 7).1 = (5 : Int) + 7) ∧
    (Foo.increment ⟨none, 2147483647⟩ 1).1 = -2147483648 := by
  exact increment_wraps_i32 ⟨none, 5⟩ 7

/-- C2: a property name outside the declared table (here `"counter"`)
makes both accessors hit `unimplemented!()`, i.e. abort — not a
recoverable `UnknownProperty` error.  This evaluates the code at the
failing input the claim is refuted by. -/
theorem unknown_property_aborts :
    Foo.set_property ⟨none, 0⟩ "counter" (some "x") = PropOutcome.panic ∧
    Foo.get_property ⟨none, 0⟩ "counter" = PropOutcome.panic ∧
    "counter" ∉ Foo.properties := by
  decide

/-- C3: setting the `"name"` property to any optional string `X`
(including `none` and the empty string) succeeds, and reading
`"name"` back returns exactly `X`. -/
theorem name_property_round_trip (s : FooPriv) (X : Option String) :
    ∃ s', Foo.set_property s "name" X = PropOutcome.ok s' ∧
      Foo.get_property s' "name" = PropOutcome.ok X := by
  refine ⟨Foo.set_name s X, ?_, ?_⟩
  · simp [Foo.set_property]
  · simp [Foo.get_property, Foo.set_name, Foo.get_name]

/-- Once the type is cached, further calls return it unchanged and run
no initialization. -/
theorem getTypeCalls_cached (n t r d : Nat) :
    getTypeCalls n ⟨some t, r, d⟩ = (List.replicate n t, ⟨some t, r, d⟩) := by
  induction n with
  | zero => simp [getTypeCalls]
  | succ n ih => simp [getTypeCalls, ex_foo_get_type, ih, List.replicate_succ]

/-- C4: starting from an unregistered state, any positive number of
`ex_foo_get_type` calls all return the same identifier, and
`class_init` runs exactly once. -/
theorem get_type_stable_classinit_once (n i : Nat) (h : 1 ≤ n) :
    (∀ t ∈ (getTypeCalls n ⟨none, 0, i⟩).1, t = i) ∧
    (getTypeCalls n ⟨none, 0, i⟩).2.classInitRuns = 1 := by
  obtain ⟨m, rfl⟩ : ∃ m, n = m + 1 := ⟨n - 1, by omega⟩
  have hrun : getTypeCalls (m + 1) (⟨none, 0, i⟩ : RegState) =
      (List.replicate (m + 1) i, ⟨some i, 1, i + 1⟩) := by
    simp [getTypeCalls, ex_foo_get_type, getTypeCalls_cached, List.replicate_succ]
  rw [hrun]
  exact ⟨fun t ht => List.eq_of_mem_replicate ht, rfl⟩

/-- Witness for C4: three calls starting from fresh id 5. -/
theorem get_type_stable_classinit_once_witness :
    (∀ t ∈ (getTypeCalls 3 ⟨none, 0, 5⟩).1, t = 5) ∧
    (getTypeCalls 3 ⟨none, 0, 5⟩).2.classInitRuns = 1 :=
  get_type_stable_classinit_once 3 5 (by decide)

/-- A concrete subclass vtable whose class-init overrode the
`increment` slot with its own implementation. -/
def overrideIncrement : FooPriv → Int → Int × FooPriv × List Emission :=
  fun s _ => (42, s, [])

/-- The class record such a subclass ends up with: overridden
`increment`, inherited default `incremented`. -/
def subFooClass : FooClassRec :=
  { increment := some overrideIncrement
    incremented := some incremented_default_trampoline }

/-- C5: `ex_foo_increment` resolves the `increment` slot through the
class of the instance it is called on — so a subclass override is
invoked for subclass instances, while the stock class record dispatches
to the default implementation; `ex_foo_get_counter` / `ex_foo_get_name`
go to the base implementation for every class record. -/
theorem virtual_dispatch_actual_class (K : FooClassRec)
    (f : FooPriv → Int → Int × FooPriv × List Emission) (s : FooPriv) (inc : Int)
    (h : K.increment = some f) :
    ex_foo_increment ⟨K, s⟩ inc = some (f s inc) ∧
    ex_foo_increment ⟨fooClassInit, s⟩ inc = some (Foo.increment s inc) ∧
    ex_foo_get_counter ⟨K, s⟩ = Foo.get_counter s ∧
    ex_foo_get_name ⟨K, s⟩ = Foo.get_name s := by
  refine ⟨?_, ?_, rfl, rfl⟩
  · simp [ex_foo_increment, h]
  · simp [ex_foo_increment, fooClassInit, increment_default_trampoline]

/-- Witness for C5: an instance of the overriding subclass. -/
theorem virtual_dispatch_actual_class_witness :
    ex_foo_increment ⟨subFooClass, ⟨none, 0⟩⟩ 7 = some (overrideIncrement ⟨none, 0⟩ 7) ∧
    ex_foo_increment ⟨fooClassInit, ⟨none, 0⟩⟩ 7 = some (Foo.increment ⟨none, 0⟩ 7) ∧
    ex_foo_get_counter ⟨subFooClass, ⟨none, 0⟩⟩ = Foo.get_counter ⟨none, 0⟩ ∧
    ex_foo_get_name ⟨subFooClass, ⟨none, 0⟩⟩ = Foo.get_name ⟨none, 0⟩ :=
  virtual_dispatch_actual_class subFooClass overrideIncrement ⟨none, 0⟩ 7 rfl

/-- C6: one emission of `"incremented"` produces the externally
connected handlers' invocations first, in connection order, each with
the same `(new_value, inc)` pair, then the default class handler,
which calls the `incremented` slot of the instance's class (when that
slot is populated); only the slot call can change the state. -/
theorem emission_order (K : FooClassRec) (handlers : List Nat)
    (s : FooPriv) (val inc : Int) :
    (emitIncremented K handlers s val inc).2 =
      (handlers.map fun h => Ev.external h val inc) ++
        Ev.classDefault val inc ::
          (match K.incremented with
           | some _ => [Ev.slotCall val inc]
           | none => []) ∧
    (emitIncremented K handlers s val inc).1 =
      (match K.incremented with
       | some f => f s val inc
       | none => s) := by
  cases hK : K.incremented with
  | some f => simp [emitIncremented, classHandler, hK, runHandlers_eq_map]
  | none => simp [emitIncremented, classHandler, hK, runHandlers_eq_map]

/-- C7: `SharedRString.new` followed by `get` returns exactly the
content it was built from, for every optional string — in particular
`new (some "bla") |>.get = some "bla"` and `new none |>.get = none`. -/
theorem shared_rstring_round_trip (s : Option String) :
    (SharedRString.new s).get = s := by
  rfl

/-- C8: with `a = new (some x)` and the alias `b = a.ref` sharing one
cell, both handles read `some x`; after `a.unref` the cell is still
live (count 1) and `b` still reads `some x`; only after `b.unref` does
the count reach 0, releasing the storage.  Counts along the way are
1, 2, 1, 0 — never negative (`count` is a natural number). -/
theorem shared_rstring_refcount (x : String) :
    (SharedRString.new (some x)).count = 1 ∧
    ((SharedRString.new (some x)).ref).count = 2 ∧
    ((SharedRString.new (some x)).ref).get = some x ∧
    (((SharedRString.new (some x)).ref).unref).get = some x ∧
    (((SharedRString.new (some x)).ref).unref).count = 1 ∧
    ((((SharedRString.new (some x)).ref).unref).unref).count = 0 := by
  refine ⟨rfl, rfl, rfl, rfl, rfl, rfl⟩

/-- C9: property accessors touch only `name` (any successful
`set_property` leaves the counter unchanged, and `get_property` is
independent of the counter), `increment` leaves `name` unchanged, the
counter is read through `get_counter`, and `"name"` is the only
declared property. -/
theorem property_frame_conditions (s : FooPriv) (p : String)
    (v : Option String) (inc : Int) :
    (match Foo.set_property s p v with
     | PropOutcome.ok s' => s'.counter = s.counter
     | PropOutcome.panic => True) ∧
    Foo.get_property s p = Foo.get_property ⟨s.name, 0⟩ p ∧
    (Foo.increment s inc).2.1.name = s.name ∧
    Foo.get_counter s = s.counter ∧
    Foo.properties = ["name"] := by
  refine ⟨?_, ?_, by simp [Foo.increment], rfl, rfl⟩
  · by_cases hp : p = "name" <;> simp [Foo.set_property, Foo.set_name, hp]
  · by_cases hp : p = "name" <;> simp [Foo.get_property, Foo.get_name, hp]

end GObjectExample
